import Mathlib

/-!
Verification development for the auto-tr trading system.

The repository's frontend (TypeScript) is under `src/frontend` and
`src/unnamed`; the backend strategy engine (indicator library, risk sizer,
position store, portfolio risk allocator) is referenced by the docs but its
source is not in the repository snapshot, so those components are modelled
from the specification text and are marked as such in their doc comments.
Frontend functions (`PortfolioService.calculateAssetPnL`,
`calculateRealTimePortfolioValue`, `getCombinedPortfolioSummary`,
`validateOrder`, the live signal log accumulator) are embedded directly from
the TypeScript source.

Numbers are modelled as rationals (`ℚ`); JavaScript's special values
(`NaN`, `Infinity`) appear where the embedded code can observe them, via the
`JsNum` type.
-/

namespace AutoTr

/-! ## Indicator library (modelled from the spec) -/

/-- Modelled from the spec: the backend Indicator Library is absent from the
snapshot. Simple moving average of the first `period` values of a close
series (spec 4.1: "EMA seeded with a simple moving average over the first
`period` candles"). -/
def sma (closes : ℕ → ℚ) (period : ℕ) : ℚ :=
  (((List.range period).map closes).sum) / (period : ℚ)

/-- Modelled from the spec: the backend Indicator Library is absent from the
snapshot. `ema closes period n` is the EMA at candle index `period - 1 + n`:
the seed (`n = 0`) is the simple moving average of the first `period`
closes, and each later value follows the recurrence
`ema[t] = ema[t-1] + k * (close[t] - ema[t-1])` with `k = 2 / (period + 1)`
(spec 4.1). -/
def ema (closes : ℕ → ℚ) (period : ℕ) : ℕ → ℚ
  | 0 => sma closes period
  | n + 1 =>
      let k : ℚ := 2 / ((period : ℚ) + 1)
      ema closes period n + k * (closes (period + n) - ema closes period n)

lemma sum_map_const_range (v : ℚ) (n : ℕ) :
    (((List.range n).map (fun _ => v)).sum) = (n : ℚ) * v := by
  induction n with
  | zero => simp
  | succ m ih =>
      rw [List.range_succ, List.map_append, List.sum_append]
      push_cast
      simp [ih]
      ring

lemma sma_const (v : ℚ) (period : ℕ) (hp : 0 < period) :
    sma (fun _ => v) period = v := by
  unfold sma
  rw [sum_map_const_range]
  field_simp

/-- C6: the EMA is seeded with the simple moving average of the first
`period` closes and then follows `ema[t] = ema[t-1] + k*(close[t]-ema[t-1])`
with `k = 2/(period+1)`; a constant series of value `v` is a fixed point:
every EMA value (seed included, hence all `t ≥ period`) equals `v`. -/
theorem ema_const_fixed_point (v : ℚ) (period : ℕ) (hp : 0 < period) (n : ℕ) :
    ema (fun _ => v) period n = v := by
  induction n with
  | zero => simpa [ema] using sma_const v period hp
  | succ m ih => simp [ema, ih]

/-- Witness for C6: with `period = 3` and the constant series `7`, the EMA
at every sampled index is `7`. -/
theorem ema_const_fixed_point_witness :
    0 < 3 ∧ ema (fun _ => (7 : ℚ)) 3 5 = 7 :=
  ⟨by decide, ema_const_fixed_point 7 3 (by decide) 5⟩

/-- Modelled from the spec: the backend Indicator Library is absent from the
snapshot. Wilder smoothing of a series `xs`: seeded with the simple average
of the first `period` values, then
`avg[n+1] = (avg[n] * (period - 1) + xs[period + n]) / period` (spec 4.1:
"RSI uses Wilder's smoothed average gain/loss"). -/
def wilderAvg (xs : ℕ → ℚ) (period : ℕ) : ℕ → ℚ
  | 0 => (((List.range period).map xs).sum) / (period : ℚ)
  | n + 1 => (wilderAvg xs period n * ((period : ℚ) - 1) + xs (period + n)) / (period : ℚ)

/-- Per-bar gain of a close series: `max (close[i+1] - close[i]) 0`. -/
def barGain (closes : ℕ → ℚ) (i : ℕ) : ℚ := max (closes (i + 1) - closes i) 0

/-- Per-bar loss of a close series: `max (close[i] - close[i+1]) 0`. -/
def barLoss (closes : ℕ → ℚ) (i : ℕ) : ℚ := max (closes i - closes (i + 1)) 0

/-- Modelled from the spec: the backend Indicator Library is absent from the
snapshot. RSI from Wilder-smoothed average gain and loss; when the average
loss is zero the RSI is defined to be `100` (spec 4.1: "if average loss is
zero, RSI = 100 (not divide-by-zero)"), otherwise
`RSI = 100 - 100 / (1 + RS)` with `RS = avgGain / avgLoss`. -/
def rsi (closes : ℕ → ℚ) (period n : ℕ) : ℚ :=
  let avgGain := wilderAvg (barGain closes) period n
  let avgLoss := wilderAvg (barLoss closes) period n
  if avgLoss = 0 then 100 else 100 - 100 / (1 + avgGain / avgLoss)

lemma sum_map_nonneg (xs : ℕ → ℚ) (h : ∀ i, 0 ≤ xs i) (n : ℕ) :
    0 ≤ ((List.range n).map xs).sum := by
  induction n with
  | zero => simp
  | succ m ih =>
      rw [List.range_succ, List.map_append, List.sum_append]
      have := h m
      simp only [List.map_cons, List.map_nil, List.sum_cons, List.sum_nil]
      linarith

lemma wilderAvg_nonneg (xs : ℕ → ℚ) (period : ℕ) (hp : 0 < period)
    (h : ∀ i, 0 ≤ xs i) (n : ℕ) : 0 ≤ wilderAvg xs period n := by
  induction n with
  | zero =>
      unfold wilderAvg
      exact div_nonneg (sum_map_nonneg xs h period) (by positivity)
  | succ m ih =>
      unfold wilderAvg
      have h1 : (0 : ℚ) ≤ (period : ℚ) - 1 := by
        have : (1 : ℚ) ≤ (period : ℚ) := by exact_mod_cast hp
        linarith
      have h2 := h (period + m)
      have h3 : (0 : ℚ) ≤ (period : ℚ) := by positivity
      exact div_nonneg (by nlinarith) h3

lemma barGain_nonneg (closes : ℕ → ℚ) (i : ℕ) : 0 ≤ barGain closes i :=
  le_max_right _ _

lemma barLoss_nonneg (closes : ℕ → ℚ) (i : ℕ) : 0 ≤ barLoss closes i :=
  le_max_right _ _

/-- C7: for every close series, every positive period and every sample
index, the RSI lies in `[0, 100]`; and whenever the Wilder-smoothed average
loss is zero the RSI is exactly `100` (no division by zero). -/
theorem rsi_bounds (closes : ℕ → ℚ) (period n : ℕ) (hp : 0 < period) :
    (0 ≤ rsi closes period n ∧ rsi closes period n ≤ 100) ∧
      (wilderAvg (barLoss closes) period n = 0 → rsi closes period n = 100) := by
  have hg : 0 ≤ wilderAvg (barGain closes) period n :=
    wilderAvg_nonneg _ period hp (barGain_nonneg closes) n
  have hl : 0 ≤ wilderAvg (barLoss closes) period n :=
    wilderAvg_nonneg _ period hp (barLoss_nonneg closes) n
  constructor
  · unfold rsi
    by_cases hz : wilderAvg (barLoss closes) period n = 0
    · rw [if_pos hz]; norm_num
    · rw [if_neg hz]
      have hlpos : 0 < wilderAvg (barLoss closes) period n := lt_of_le_of_ne hl (Ne.symm hz)
      have hrs : 0 ≤ wilderAvg (barGain closes) period n / wilderAvg (barLoss closes) period n :=
        div_nonneg hg hl
      have hdenom : (0 : ℚ) < 1 + wilderAvg (barGain closes) period n / wilderAvg (barLoss closes) period n := by
        linarith
      constructor
      · have hfrac : 100 / (1 + wilderAvg (barGain closes) period n / wilderAvg (barLoss closes) period n) ≤ 100 := by
          rw [div_le_iff₀ hdenom]
          nlinarith
        linarith
      · have hfrac : 0 < 100 / (1 + wilderAvg (barGain closes) period n / wilderAvg (barLoss closes) period n) :=
          div_pos (by norm_num) hdenom
        linarith
  · intro hz
    unfold rsi
    rw [if_pos hz]

/-- Witness for C7: a concrete rising series (`closes i = i`) with
`period = 2` has RSI within bounds at sample `1`, and its average loss is
zero so the RSI is exactly `100`. -/
theorem rsi_bounds_witness :
    0 < 2 ∧
      ((0 ≤ rsi (fun i => (i : ℚ)) 2 1 ∧ rsi (fun i => (i : ℚ)) 2 1 ≤ 100) ∧
        (wilderAvg (barLoss (fun i => (i : ℚ))) 2 1 = 0 → rsi (fun i => (i : ℚ)) 2 1 = 100)) :=
  ⟨by decide, rsi_bounds (fun i => (i : ℚ)) 2 1 (by decide)⟩

/-! ## Position data model (modelled from the spec, section 3) -/

/-- Side of a position: long or short (spec 3, `side ∈ {long, short}`). -/
inductive Side where
  | long : Side
  | short : Side
deriving DecidableEq, Repr

/-- Sign of a side: `+1` for a long, `-1` for a short. -/
def sideSign : Side → ℚ
  | .long => 1
  | .short => -1

/-- Status of a position (spec 3, `status ∈ {open, closed}`). -/
inductive PosStatus where
  | opened : PosStatus
  | closed : PosStatus
deriving DecidableEq, Repr

/-- Modelled from the spec: Position record (spec 3); the backend Position
Store is absent from the snapshot. -/
structure Position where
  id : ℕ
  symbol : String
  side : Side
  entry_price : ℚ
  quantity : ℚ
  dollar_amount : ℚ
  initial_stop_price : ℚ
  trailing_stop_price : ℚ
  status : PosStatus
  realized_pnl : Option ℚ
deriving DecidableEq, Repr

/-! ## Risk sizer (modelled from the spec, section 4.3) -/

/-- Result of sizing a signal into an intended trade (spec 4.3). -/
structure SizedTrade where
  initial_stop : ℚ
  risk_usd : ℚ
  quantity : ℚ
  dollar_amount : ℚ
deriving DecidableEq, Repr

/-- Modelled from the spec: the backend Risk Sizer is absent from the
snapshot. Spec 4.3: `initial_stop = entry_price - initial_stop_atr_mult *
atr` for a long, mirrored for a short; `risk_usd = portfolio_value *
risk_per_trade_pct`; `quantity = risk_usd / abs(entry_price -
initial_stop)`; `dollar_amount = quantity * entry_price`. -/
def sizeTrade (side : Side) (entry_price atr initial_stop_atr_mult
    portfolio_value risk_per_trade_pct : ℚ) : SizedTrade :=
  let initial_stop :=
    match side with
    | .long => entry_price - initial_stop_atr_mult * atr
    | .short => entry_price + initial_stop_atr_mult * atr
  let risk_usd := portfolio_value * risk_per_trade_pct
  let quantity := risk_usd / |entry_price - initial_stop|
  { initial_stop := initial_stop, risk_usd := risk_usd,
    quantity := quantity, dollar_amount := quantity * entry_price }

/-- C8: the sizer computes `initial_stop = entry - mult * atr` for a long
(mirrored for a short), `risk_usd = portfolio_value * risk_per_trade_pct`,
and a quantity that puts exactly `risk_usd` at risk over the stop distance;
in the spec's concrete scenario (ATR 200, mult 2.5, risk 1 %, portfolio
$10,000) this yields `risk_usd = 100`, `initial_stop = entry - 500` and
`quantity = 0.2`, for every entry price. -/
theorem sizeTrade_spec (entry atr mult pv pct : ℚ) (hstop : atr * mult ≠ 0) :
    ((sizeTrade .long entry atr mult pv pct).initial_stop = entry - mult * atr ∧
      (sizeTrade .short entry atr mult pv pct).initial_stop = entry + mult * atr ∧
      (sizeTrade .long entry atr mult pv pct).risk_usd = pv * pct ∧
      (sizeTrade .long entry atr mult pv pct).quantity * |entry - (sizeTrade .long entry atr mult pv pct).initial_stop| = pv * pct) ∧
    ((sizeTrade .long entry 200 (5/2) 10000 (1/100)).risk_usd = 100 ∧
      (sizeTrade .long entry 200 (5/2) 10000 (1/100)).initial_stop = entry - 500 ∧
      (sizeTrade .long entry 200 (5/2) 10000 (1/100)).quantity = 1/5) := by
  constructor
  · refine ⟨rfl, rfl, rfl, ?_⟩
    show pv * pct / |entry - (entry - mult * atr)| * |entry - (entry - mult * atr)| = pv * pct
    have h1 : entry - (entry - mult * atr) = mult * atr := by ring
    rw [h1]
    have h2 : |mult * atr| ≠ 0 := by
      rw [abs_ne_zero, mul_comm]
      exact hstop
    exact div_mul_cancel₀ _ h2
  · refine ⟨?_, ?_, ?_⟩
    · show (10000 : ℚ) * (1/100) = 100
      norm_num
    · show entry - 5/2 * 200 = entry - 500
      ring
    · show 10000 * (1/100) / |entry - (entry - 5/2 * 200)| = 1/5
      have h1 : entry - (entry - 5/2 * 200) = (500 : ℚ) := by ring
      rw [h1]
      norm_num

/-- Witness for C8: the sizer theorem at entry 50000, ATR 200, mult 2.5,
portfolio $10,000, risk 1 %. -/
theorem sizeTrade_spec_witness :
    (sizeTrade .long 50000 200 (5/2) 10000 (1/100)).risk_usd = 100 ∧
      (sizeTrade .long 50000 200 (5/2) 10000 (1/100)).initial_stop = 49500 ∧
      (sizeTrade .long 50000 200 (5/2) 10000 (1/100)).quantity = 1/5 := by
  have h := (sizeTrade_spec 50000 200 (5/2) 10000 (1/100) (by norm_num)).2
  exact ⟨h.1, by rw [h.2.1]; norm_num, h.2.2⟩

/-! ## Trailing stop update (modelled from the spec, sections 3 and 4.4) -/

/-- Modelled from the spec: candidate trailing stop recomputed from the
current price as an ATR multiple, `current_price - trailing_stop_atr_mult *
atr` for a long and mirrored for a short (spec 4.2 / 4.3 / glossary). -/
def trailCandidate (side : Side) (current_price atr trailing_stop_atr_mult : ℚ) : ℚ :=
  match side with
  | .long => current_price - trailing_stop_atr_mult * atr
  | .short => current_price + trailing_stop_atr_mult * atr

/-- Modelled from the spec: the backend Position Store is absent from the
snapshot. `update_trailing_stop` recomputes the trailing stop from the
current price and stores it only if it would tighten favorably — for a long
only if strictly above the stored stop, for a short only if strictly below —
otherwise the call is a no-op (spec 4.4). -/
def update_trailing_stop (p : Position) (current_price atr trailing_stop_atr_mult : ℚ) :
    Position :=
  let cand := trailCandidate p.side current_price atr trailing_stop_atr_mult
  match p.side with
  | .long =>
      if p.trailing_stop_price < cand then { p with trailing_stop_price := cand } else p
  | .short =>
      if cand < p.trailing_stop_price then { p with trailing_stop_price := cand } else p

/-- Run a sequence of `update_trailing_stop` calls; each call supplies a
current price and the ATR observed at that tick; the configured ATR multiple
is fixed for the position's lifetime. -/
def runTrailUpdates (p : Position) (mult : ℚ) (calls : List (ℚ × ℚ)) : Position :=
  calls.foldl (fun q c => update_trailing_stop q c.1 c.2 mult) p

lemma update_trailing_stop_side (p : Position) (pr atr mult : ℚ) :
    (update_trailing_stop p pr atr mult).side = p.side := by
  unfold update_trailing_stop
  cases hps : p.side <;> dsimp <;> split <;> simp [hps]

lemma update_trailing_stop_noop_long (p : Position) (pr atr mult : ℚ)
    (h : p.side = .long)
    (hle : trailCandidate .long pr atr mult ≤ p.trailing_stop_price) :
    update_trailing_stop p pr atr mult = p := by
  unfold update_trailing_stop
  rw [h]
  dsimp
  rw [if_neg (not_lt.mpr hle)]

lemma update_trailing_stop_noop_short (p : Position) (pr atr mult : ℚ)
    (h : p.side = .short)
    (hle : p.trailing_stop_price ≤ trailCandidate .short pr atr mult) :
    update_trailing_stop p pr atr mult = p := by
  unfold update_trailing_stop
  rw [h]
  dsimp
  rw [if_neg (not_lt.mpr hle)]

lemma update_trailing_stop_absorbs_long (p : Position) (pr atr mult : ℚ)
    (h : p.side = .long) :
    trailCandidate .long pr atr mult ≤
      (update_trailing_stop p pr atr mult).trailing_stop_price := by
  unfold update_trailing_stop
  rw [h]
  dsimp
  split
  · exact le_refl _
  · rename_i hn
    exact le_of_not_lt hn

lemma update_trailing_stop_absorbs_short (p : Position) (pr atr mult : ℚ)
    (h : p.side = .short) :
    (update_trailing_stop p pr atr mult).trailing_stop_price ≤
      trailCandidate .short pr atr mult := by
  unfold update_trailing_stop
  rw [h]
  dsimp
  split
  · exact le_refl _
  · rename_i hn
    exact le_of_not_lt hn

lemma update_trailing_stop_idem (p : Position) (pr atr mult : ℚ) :
    update_trailing_stop (update_trailing_stop p pr atr mult) pr atr mult =
      update_trailing_stop p pr atr mult := by
  cases hs : p.side
  · exact update_trailing_stop_noop_long _ pr atr mult
      (by rw [update_trailing_stop_side, hs])
      (update_trailing_stop_absorbs_long p pr atr mult hs)
  · exact update_trailing_stop_noop_short _ pr atr mult
      (by rw [update_trailing_stop_side, hs])
      (update_trailing_stop_absorbs_short p pr atr mult hs)

lemma update_trailing_stop_mono_long (p : Position) (pr atr mult : ℚ)
    (h : p.side = .long) :
    p.trailing_stop_price ≤ (update_trailing_stop p pr atr mult).trailing_stop_price := by
  unfold update_trailing_stop
  rw [h]
  dsimp
  split
  · rename_i hlt
    exact le_of_lt hlt
  · exact le_refl _

lemma update_trailing_stop_mono_short (p : Position) (pr atr mult : ℚ)
    (h : p.side = .short) :
    (update_trailing_stop p pr atr mult).trailing_stop_price ≤ p.trailing_stop_price := by
  unfold update_trailing_stop
  rw [h]
  dsimp
  split
  · rename_i hlt
    exact le_of_lt hlt
  · exact le_refl _

lemma runTrailUpdates_side (p : Position) (mult : ℚ) (calls : List (ℚ × ℚ)) :
    (runTrailUpdates p mult calls).side = p.side := by
  induction calls generalizing p with
  | nil => rfl
  | cons c cs ih =>
      show (runTrailUpdates (update_trailing_stop p c.1 c.2 mult) mult cs).side = p.side
      rw [ih, update_trailing_stop_side]

lemma runTrailUpdates_mono_long (p : Position) (mult : ℚ) (calls : List (ℚ × ℚ))
    (h : p.side = .long) :
    p.trailing_stop_price ≤ (runTrailUpdates p mult calls).trailing_stop_price := by
  induction calls generalizing p with
  | nil => exact le_refl _
  | cons c cs ih =>
      have step := update_trailing_stop_mono_long p c.1 c.2 mult h
      have hside : (update_trailing_stop p c.1 c.2 mult).side = .long := by
        rw [update_trailing_stop_side, h]
      exact le_trans step (ih _ hside)

lemma runTrailUpdates_mono_short (p : Position) (mult : ℚ) (calls : List (ℚ × ℚ))
    (h : p.side = .short) :
    (runTrailUpdates p mult calls).trailing_stop_price ≤ p.trailing_stop_price := by
  induction calls generalizing p with
  | nil => exact le_refl _
  | cons c cs ih =>
      have step := update_trailing_stop_mono_short p c.1 c.2 mult h
      have hside : (update_trailing_stop p c.1 c.2 mult).side = .short := by
        rw [update_trailing_stop_side, h]
      exact le_trans (ih _ hside) step

lemma runTrailUpdates_append (p : Position) (mult : ℚ) (c₁ c₂ : List (ℚ × ℚ)) :
    runTrailUpdates p mult (c₁ ++ c₂) = runTrailUpdates (runTrailUpdates p mult c₁) mult c₂ := by
  unfold runTrailUpdates
  exact List.foldl_append _ _ _ _

/-- C3: over any sequence of `update_trailing_stop` calls with any prices,
a long position's stored `trailing_stop_price` is non-decreasing (the value
after any later prefix is at least the value after any earlier prefix) and
a short position's is non-increasing; an update whose recomputed candidate
would loosen the stop is a no-op; and repeating the same update is
idempotent. -/
theorem trailing_stop_never_loosens (p : Position) (mult : ℚ) :
    (∀ c₁ c₂ : List (ℚ × ℚ), p.side = .long →
        (runTrailUpdates p mult c₁).trailing_stop_price ≤
          (runTrailUpdates p mult (c₁ ++ c₂)).trailing_stop_price) ∧
    (∀ c₁ c₂ : List (ℚ × ℚ), p.side = .short →
        (runTrailUpdates p mult (c₁ ++ c₂)).trailing_stop_price ≤
          (runTrailUpdates p mult c₁).trailing_stop_price) ∧
    (∀ pr atr, p.side = .long →
        trailCandidate .long pr atr mult ≤ p.trailing_stop_price →
        update_trailing_stop p pr atr mult = p) ∧
    (∀ pr atr, p.side = .short →
        p.trailing_stop_price ≤ trailCandidate .short pr atr mult →
        update_trailing_stop p pr atr mult = p) ∧
    (∀ pr atr,
        update_trailing_stop (update_trailing_stop p pr atr mult) pr atr mult =
          update_trailing_stop p pr atr mult) := by
  refine ⟨?_, ?_, ?_, ?_, ?_⟩
  · intro c₁ c₂ h
    rw [runTrailUpdates_append]
    exact runTrailUpdates_mono_long _ mult c₂ (by rw [runTrailUpdates_side, h])
  · intro c₁ c₂ h
    rw [runTrailUpdates_append]
    exact runTrailUpdates_mono_short _ mult c₂ (by rw [runTrailUpdates_side, h])
  · intro pr atr h hle
    exact update_trailing_stop_noop_long p pr atr mult h hle
  · intro pr atr h hle
    exact update_trailing_stop_noop_short p pr atr mult h hle
  · intro pr atr
    exact update_trailing_stop_idem p pr atr mult

/-- Witness for C3: a concrete long position at trailing stop 49000, ATR
multiple 3; after the calls (price 50000, ATR 200) then (price 49500, ATR
200) the stop never decreases below its value after the first call. -/
theorem trailing_stop_never_loosens_witness :
    Position.side ⟨1, "BTCUSDT", .long, 50000, 1/5, 10000, 49500, 49000, .opened, none⟩ = .long ∧
      (runTrailUpdates ⟨1, "BTCUSDT", .long, 50000, 1/5, 10000, 49500, 49000, .opened, none⟩
          3 [(50000, 200)]).trailing_stop_price ≤
        (runTrailUpdates ⟨1, "BTCUSDT", .long, 50000, 1/5, 10000, 49500, 49000, .opened, none⟩
          3 ([(50000, 200)] ++ [(49500, 200)])).trailing_stop_price :=
  ⟨rfl,
    (trailing_stop_never_loosens
        ⟨1, "BTCUSDT", .long, 50000, 1/5, 10000, 49500, 49000, .opened, none⟩ 3).1
      [(50000, 200)] [(49500, 200)] rfl⟩

/-! ## Position store (modelled from the spec, section 4.4) -/

/-- An approved trade proposal about to be committed to the store
(spec 4.3 / 4.4; timestamps elided). -/
structure ProposedTrade where
  symbol : String
  side : Side
  entry_price : ℚ
  quantity : ℚ
  dollar_amount : ℚ
  initial_stop_price : ℚ
  trailing_stop_price : ℚ
deriving DecidableEq, Repr

/-- Position store failures (spec 7 taxonomy). -/
inductive StoreError where
  | DuplicatePosition : StoreError
  | NotFound : StoreError
  | AlreadyClosed : StoreError
deriving DecidableEq, Repr

/-- Modelled from the spec: the authoritative set of positions plus a fresh
id counter (spec 4.4; the backend Position Store is absent from the
snapshot). -/
structure Store where
  positions : List Position
  nextId : ℕ
deriving DecidableEq, Repr

/-- The empty store a process starts from. -/
def emptyStore : Store := ⟨[], 0⟩

/-- Does `p` count as an open position for `(symbol, side)`? -/
def isOpenFor (symbol : String) (side : Side) (p : Position) : Bool :=
  p.status == PosStatus.opened && p.symbol == symbol && p.side == side

/-- Is there an open position for `(symbol, side)` in the store? -/
def hasOpen (s : Store) (symbol : String) (side : Side) : Bool :=
  s.positions.any (isOpenFor symbol side)

/-- Number of open positions for `(symbol, side)` in the store. -/
def openCount (s : Store) (symbol : String) (side : Side) : ℕ :=
  s.positions.countP (isOpenFor symbol side)

/-- Modelled from the spec: `open(proposed_trade) -> Position`, failing with
`DuplicatePosition` if an open position already exists for the proposal's
`(symbol, side)` and leaving the store unchanged in that case (spec 4.4). -/
def openPosition (s : Store) (t : ProposedTrade) : Except StoreError (Store × Position) :=
  if hasOpen s t.symbol t.side then
    .error .DuplicatePosition
  else
    let p : Position :=
      ⟨s.nextId, t.symbol, t.side, t.entry_price, t.quantity, t.dollar_amount,
        t.initial_stop_price, t.trailing_stop_price, .opened, none⟩
    .ok (⟨s.positions ++ [p], s.nextId + 1⟩, p)

/-- Modelled from the spec: `close(position_id, close_price, reason) ->
realized_pnl`, failing with `NotFound` or `AlreadyClosed`; realized P&L is
`(close_price - entry_price) * quantity * side_sign - fees` (spec 4.4). -/
def closePosition (s : Store) (pid : ℕ) (close_price fees : ℚ) :
    Except StoreError (Store × ℚ) :=
  match s.positions.find? (fun p => p.id == pid) with
  | none => .error .NotFound
  | some p =>
      if p.status == PosStatus.closed then
        .error .AlreadyClosed
      else
        let pnl := (close_price - p.entry_price) * p.quantity * sideSign p.side - fees
        .ok (⟨s.positions.map (fun q =>
            if q.id == pid then { q with status := .closed, realized_pnl := some pnl } else q),
          s.nextId⟩, pnl)

/-- Stores reachable from the empty store through successful `open` and
`close` operations (failed operations return an error and no store, so they
cannot change the state). -/
inductive Reachable : Store → Prop where
  | init : Reachable emptyStore
  | openStep {s : Store} {t : ProposedTrade} {s' : Store} {p : Position} :
      Reachable s → openPosition s t = .ok (s', p) → Reachable s'
  | closeStep {s : Store} {pid : ℕ} {cp fees : ℚ} {s' : Store} {pnl : ℚ} :
      Reachable s → closePosition s pid cp fees = .ok (s', pnl) → Reachable s'

lemma openCount_openPosition_same (s : Store) (t : ProposedTrade) (s' : Store)
    (p : Position) (h : openPosition s t = .ok (s', p)) :
    openCount s' t.symbol t.side = openCount s t.symbol t.side + 1 := by
  unfold openPosition at h
  by_cases hdup : hasOpen s t.symbol t.side
  · rw [if_pos hdup] at h
    exact absurd h (by simp)
  · rw [if_neg hdup] at h
    simp only [Except.ok.injEq, Prod.mk.injEq] at h
    obtain ⟨hs, -⟩ := h
    subst hs
    unfold openCount
    dsimp
    rw [List.countP_append]
    simp [isOpenFor]

lemma openCount_openPosition_zero (s : Store) (t : ProposedTrade) (s' : Store)
    (p : Position) (h : openPosition s t = .ok (s', p)) :
    openCount s t.symbol t.side = 0 := by
  unfold openPosition at h
  by_cases hdup : hasOpen s t.symbol t.side
  · rw [if_pos hdup] at h
    exact absurd h (by simp)
  · rw [if_neg hdup] at h
    unfold hasOpen at hdup
    unfold openCount
    rw [List.countP_eq_zero]
    intro a ha
    exact fun hp => hdup (List.any_eq_true.mpr ⟨a, ha, hp⟩)

lemma openCount_openPosition_other (s : Store) (t : ProposedTrade) (s' : Store)
    (p : Position) (h : openPosition s t = .ok (s', p))
    (symbol : String) (side : Side) (hne : ¬(symbol = t.symbol ∧ side = t.side)) :
    openCount s' symbol side = openCount s symbol side := by
  unfold openPosition at h
  by_cases hdup : hasOpen s t.symbol t.side
  · rw [if_pos hdup] at h
    exact absurd h (by simp)
  · rw [if_neg hdup] at h
    simp only [Except.ok.injEq, Prod.mk.injEq] at h
    obtain ⟨hs, -⟩ := h
    subst hs
    unfold openCount
    dsimp
    rw [List.countP_append]
    have hfalse : isOpenFor symbol side
        ⟨s.nextId, t.symbol, t.side, t.entry_price, t.quantity, t.dollar_amount,
          t.initial_stop_price, t.trailing_stop_price, .opened, none⟩ = false := by
      by_contra hcon
      rw [Bool.not_eq_false] at hcon
      simp only [isOpenFor, Bool.and_eq_true, beq_iff_eq] at hcon
      exact hne ⟨hcon.1.2.symm, hcon.2.symm⟩
    simp [hfalse]

lemma openCount_closePosition (s : Store) (pid : ℕ) (cp fees : ℚ) (s' : Store)
    (pnl : ℚ) (h : closePosition s pid cp fees = .ok (s', pnl))
    (symbol : String) (side : Side) :
    openCount s' symbol side ≤ openCount s symbol side := by
  unfold closePosition at h
  cases hf : s.positions.find? (fun p => p.id == pid) with
  | none => rw [hf] at h; exact absurd h (by simp)
  | some p =>
      rw [hf] at h
      dsimp only at h
      by_cases hc : p.status == PosStatus.closed
      · rw [if_pos hc] at h
        exact absurd h (by simp)
      · rw [if_neg hc] at h
        simp only [Except.ok.injEq, Prod.mk.injEq] at h
        obtain ⟨hs, -⟩ := h
        subst hs
        unfold openCount
        dsimp
        rw [List.countP_map]
        apply List.countP_mono_left
        intro q _ hq
        simp only [Function.comp] at hq
        by_cases hid : q.id == pid
        · rw [if_pos hid] at hq
          simp [isOpenFor] at hq
        · rwa [if_neg hid] at hq

/-- The store invariant: at most one open position per `(symbol, side)`. -/
def AtMostOneOpen (s : Store) : Prop :=
  ∀ symbol side, openCount s symbol side ≤ 1

lemma reachable_atMostOneOpen (s : Store) (h : Reachable s) : AtMostOneOpen s := by
  induction h with
  | init => intro symbol side; simp [openCount, emptyStore]
  | openStep hr hop ih =>
      rename_i s₀ t s' p
      intro symbol side
      by_cases hsame : symbol = t.symbol ∧ side = t.side
      · obtain ⟨h1, h2⟩ := hsame
        subst h1; subst h2
        rw [openCount_openPosition_same s₀ t s' p hop,
          openCount_openPosition_zero s₀ t s' p hop]
      · rw [openCount_openPosition_other s₀ t s' p hop symbol side hsame]
        exact ih symbol side
  | closeStep hr hcl ih =>
      rename_i s₀ pid cp fees s' pnl
      intro symbol side
      exact le_trans (openCount_closePosition s₀ pid cp fees s' pnl hcl symbol side)
        (ih symbol side)

/-- C4: in every reachable store there is at most one open position per
`(symbol, side)`; and after a successful `open`, a second `open` for the
same `(symbol, side)` fails with `DuplicatePosition` (the error branch
returns no store, so the store is unchanged) while the store holds exactly
one open position for that pair. -/
theorem at_most_one_open_position :
    (∀ s : Store, Reachable s → AtMostOneOpen s) ∧
    (∀ (s : Store) (t₁ t₂ : ProposedTrade) (s₁ : Store) (p₁ : Position),
        openPosition s t₁ = .ok (s₁, p₁) →
        t₂.symbol = t₁.symbol → t₂.side = t₁.side →
        openPosition s₁ t₂ = .error .DuplicatePosition ∧
          openCount s₁ t₁.symbol t₁.side = 1) := by
  constructor
  · exact reachable_atMostOneOpen
  · intro s t₁ t₂ s₁ p₁ hop hsym hside
    have hcount : openCount s₁ t₁.symbol t₁.side = 1 := by
      rw [openCount_openPosition_same s t₁ s₁ p₁ hop,
        openCount_openPosition_zero s t₁ s₁ p₁ hop]
    refine ⟨?_, hcount⟩
    have hpos : 0 < openCount s₁ t₂.symbol t₂.side := by
      rw [hsym, hside, hcount]
      norm_num
    have hhas : hasOpen s₁ t₂.symbol t₂.side = true := by
      unfold openCount at hpos
      rw [List.countP_pos_iff] at hpos
      obtain ⟨a, ha, hp⟩ := hpos
      exact List.any_eq_true.mpr ⟨a, ha, hp⟩
    unfold openPosition
    rw [if_pos hhas]

/-- Witness for C4: opening `("BTCUSDT", long)` on the empty store succeeds
and a second identical `open` fails with `DuplicatePosition`, leaving
exactly one open position. -/
theorem at_most_one_open_position_witness :
    openPosition
        ⟨[⟨0, "BTCUSDT", .long, 50000, 1/5, 10000, 49500, 49400, .opened, none⟩], 1⟩
        ⟨"BTCUSDT", .long, 50000, 1/5, 10000, 49500, 49400⟩ =
      .error .DuplicatePosition ∧
    openCount
        ⟨[⟨0, "BTCUSDT", .long, 50000, 1/5, 10000, 49500, 49400, .opened, none⟩], 1⟩
        "BTCUSDT" .long = 1 :=
  at_most_one_open_position.2 emptyStore
    ⟨"BTCUSDT", .long, 50000, 1/5, 10000, 49500, 49400⟩
    ⟨"BTCUSDT", .long, 50000, 1/5, 10000, 49500, 49400⟩
    ⟨[⟨0, "BTCUSDT", .long, 50000, 1/5, 10000, 49500, 49400, .opened, none⟩], 1⟩
    ⟨0, "BTCUSDT", .long, 50000, 1/5, 10000, 49500, 49400, .opened, none⟩
    rfl rfl rfl

/-! ## Portfolio risk allocator (modelled from the spec, section 4.5) -/

/-- Process-wide risk limits (spec 3). -/
structure RiskLimits where
  max_total_exposure_usd : ℚ
  max_single_asset_weight_pct : ℚ
  risk_per_trade_pct : ℚ
  min_order_usd : ℚ
deriving DecidableEq, Repr

/-- Allocator verdict (spec 4.5). -/
inductive Approval where
  | Approved : Approval
  | Rejected (reason : String) : Approval
deriving DecidableEq, Repr

/-- Current total exposure: sum of the `dollar_amount` of the given open
positions (spec 4.5). -/
def current_total_exposure (open_positions : List Position) : ℚ :=
  (open_positions.map Position.dollar_amount).sum

/-- Modelled from the spec: the backend Portfolio Risk Allocator is absent
from the snapshot. Spec 4.5: rejects when `current_total_exposure +
proposed.dollar_amount > max_total_exposure_usd`, or when
`proposed.dollar_amount > max_single_asset_weight_pct * portfolio_value`;
otherwise approves. -/
def approve (proposed : ProposedTrade) (all_open_positions : List Position)
    (limits : RiskLimits) (portfolio_value : ℚ) : Approval :=
  if current_total_exposure all_open_positions + proposed.dollar_amount >
      limits.max_total_exposure_usd then
    .Rejected "total-exposure-exceeded"
  else if proposed.dollar_amount >
      limits.max_single_asset_weight_pct * portfolio_value then
    .Rejected "single-asset-weight-exceeded"
  else
    .Approved

/-- C5: the allocator approves exactly when neither ceiling is breached; an
approval guarantees that the exposure after committing the proposal still
respects `max_total_exposure_usd` (so the sum of open positions'
`dollar_amount` cannot be pushed above the ceiling by an approved entry);
and the spec's scenario — a $5,000 proposal on a $10,000 portfolio with a
40 % single-asset weight cap and the total-exposure ceiling not yet hit —
is rejected with reason `single-asset-weight-exceeded`. -/
theorem allocator_exposure_ceiling (proposed : ProposedTrade)
    (all_open_positions : List Position) (limits : RiskLimits) (pv : ℚ) :
    (approve proposed all_open_positions limits pv = .Approved ↔
      current_total_exposure all_open_positions + proposed.dollar_amount ≤
          limits.max_total_exposure_usd ∧
        proposed.dollar_amount ≤ limits.max_single_asset_weight_pct * pv) ∧
    (approve proposed all_open_positions limits pv = .Approved →
      current_total_exposure all_open_positions + proposed.dollar_amount ≤
        limits.max_total_exposure_usd) ∧
    approve ⟨"BTCUSDT", .long, 50000, 1/10, 5000, 49500, 49400⟩ []
        ⟨100000, 2/5, 1/100, 10⟩ 10000 =
      .Rejected "single-asset-weight-exceeded" := by
  refine ⟨?_, ?_, ?_⟩
  · unfold approve
    constructor
    · intro h
      by_cases h1 : current_total_exposure all_open_positions + proposed.dollar_amount >
          limits.max_total_exposure_usd
      · rw [if_pos h1] at h
        exact absurd h (by simp)
      · rw [if_neg h1] at h
        by_cases h2 : proposed.dollar_amount >
            limits.max_single_asset_weight_pct * pv
        · rw [if_pos h2] at h
          exact absurd h (by simp)
        · exact ⟨not_lt.mp h1, not_lt.mp h2⟩
    · intro ⟨h1, h2⟩
      rw [if_neg (not_lt.mpr h1), if_neg (not_lt.mpr h2)]
  · intro h
    by_cases h1 : current_total_exposure all_open_positions + proposed.dollar_amount >
        limits.max_total_exposure_usd
    · unfold approve at h
      rw [if_pos h1] at h
      exact absurd h (by simp)
    · exact not_lt.mp h1
  · unfold approve current_total_exposure
    norm_num

/-- Witness for C5: a $3,000 proposal on the same $10,000 portfolio passes
both ceilings and is approved, and the spec's $5,000 proposal is rejected
with reason `single-asset-weight-exceeded`. -/
theorem allocator_exposure_ceiling_witness :
    approve ⟨"BTCUSDT", .long, 50000, 3/50, 3000, 49500, 49400⟩ []
        ⟨100000, 2/5, 1/100, 10⟩ 10000 = .Approved ∧
      approve ⟨"BTCUSDT", .long, 50000, 1/10, 5000, 49500, 49400⟩ []
          ⟨100000, 2/5, 1/100, 10⟩ 10000 =
        .Rejected "single-asset-weight-exceeded" :=
  ⟨(allocator_exposure_ceiling ⟨"BTCUSDT", .long, 50000, 3/50, 3000, 49500, 49400⟩
      [] ⟨100000, 2/5, 1/100, 10⟩ 10000).1.mpr
      ⟨by norm_num [current_total_exposure], by norm_num⟩,
    (allocator_exposure_ceiling ⟨"BTCUSDT", .long, 50000, 1/10, 5000, 49500, 49400⟩
      [] ⟨100000, 2/5, 1/100, 10⟩ 10000).2.2⟩

/-! ## Unrealized P&L -/

/-- Modelled from the spec: Position Store
`unrealized_pnl(position_id, current_price)`, a pure read computing
`(current_price - entry_price) * quantity * side_sign` (spec 4.4; the
backend Position Store is absent from the snapshot). -/
def unrealized_pnl (p : Position) (current_price : ℚ) : ℚ :=
  (current_price - p.entry_price) * p.quantity * sideSign p.side

/-- Result record of `PortfolioService.calculateAssetPnL`
(`src/unnamed/part_014`, lines 238-259). -/
structure AssetPnLResult where
  currentValue : ℚ
  unrealizedPnl : ℚ
  unrealizedPnlPercent : ℚ
deriving DecidableEq, Repr

/-- Embedded from `src/unnamed/part_014` lines 238-259
(`PortfolioService.calculateAssetPnL`): `currentValue = totalQuantity *
currentPrice`, `unrealizedPnl = currentValue - totalInvested`, and the
percentage is division-guarded by `totalInvested > 0`. The `averagePrice`
parameter is unused, as in the source. -/
def calculateAssetPnL (totalQuantity averagePrice currentPrice totalInvested : ℚ) :
    AssetPnLResult :=
  let currentValue := totalQuantity * currentPrice
  let unrealizedPnl := currentValue - totalInvested
  let unrealizedPnlPercent :=
    if totalInvested > 0 then unrealizedPnl / totalInvested * 100 else 0
  ⟨currentValue, unrealizedPnl, unrealizedPnlPercent⟩

/-- C1: the unrealized P&L is `(current_price - entry_price) * quantity *
side_sign`; a short position's P&L is exactly the negation of the long
P&L at the same prices and quantity; and the frontend
`calculateAssetPnL` (which handles long spot holdings only) agrees with the
long case whenever `totalInvested = averagePrice * totalQuantity`. -/
theorem unrealized_pnl_side_sign :
    (∀ (p : Position) (price : ℚ),
        unrealized_pnl p price = (price - p.entry_price) * p.quantity * sideSign p.side) ∧
    (∀ (i₁ i₂ : ℕ) (symbol : String) (entry qty da isp tsp : ℚ)
        (st : PosStatus) (r₁ r₂ : Option ℚ) (price : ℚ),
        unrealized_pnl ⟨i₂, symbol, .short, entry, qty, da, isp, tsp, st, r₂⟩ price =
          - unrealized_pnl ⟨i₁, symbol, .long, entry, qty, da, isp, tsp, st, r₁⟩ price) ∧
    (∀ qty avg price : ℚ,
        (calculateAssetPnL qty avg price (avg * qty)).unrealizedPnl =
          unrealized_pnl ⟨0, "BTCUSDT", .long, avg, qty, avg * qty, 0, 0, .opened, none⟩ price) := by
  refine ⟨fun p price => rfl, ?_, ?_⟩
  · intro i₁ i₂ symbol entry qty da isp tsp st r₁ r₂ price
    show (price - entry) * qty * sideSign .short = -((price - entry) * qty * sideSign .long)
    unfold sideSign
    ring
  · intro qty avg price
    show qty * price - avg * qty = (price - avg) * qty * sideSign .long
    unfold sideSign
    ring

/-! ## Real-time portfolio value and combined summary
(`src/unnamed/part_014`) -/

/-- The fields of the `AssetData` interface (`src/unnamed/part_014`, lines
3-15) read by the embedded functions. -/
structure AssetData where
  total_quantity : ℚ
  total_invested : ℚ
  current_value : ℚ
  average_price : ℚ
  current_price : ℚ
  unrealized_pnl : ℚ
  unrealized_pnl_percent : ℚ
deriving DecidableEq, Repr

/-- JavaScript `a || b` for a price lookup: `currentPrices[symbol] ||
asset.current_price` falls back when the lookup is missing or `0` (JS
treats `0` as falsy). -/
def jsOrPrice (lookup : Option ℚ) (fallback : ℚ) : ℚ :=
  match lookup with
  | some x => if x = 0 then fallback else x
  | none => fallback

/-- Per-asset record built by `calculateRealTimePortfolioValue`
(`src/unnamed/part_014`, lines 171-194). -/
structure RTAssetUpdate where
  currentValue : ℚ
  pnl : ℚ
  pnlPercent : ℚ
  priceChange : ℚ
  priceChangePercent : ℚ
deriving DecidableEq, Repr

/-- Embedded from `src/unnamed/part_014` lines 171-194: the body of the
per-asset loop of `calculateRealTimePortfolioValue`. Both percentages are
division-guarded (`asset.current_price > 0`, `asset.total_invested > 0`). -/
def rtAssetUpdate (asset : AssetData) (priceLookup : Option ℚ) : RTAssetUpdate :=
  let currentPrice := jsOrPrice priceLookup asset.current_price
  let priceChange := currentPrice - asset.current_price
  let priceChangePercent :=
    if asset.current_price > 0 then priceChange / asset.current_price * 100 else 0
  let currentValue := asset.total_quantity * currentPrice
  let pnl := currentValue - asset.total_invested
  let pnlPercent :=
    if asset.total_invested > 0 then pnl / asset.total_invested * 100 else 0
  ⟨currentValue, pnl, pnlPercent, priceChange, priceChangePercent⟩

/-- Result of `calculateRealTimePortfolioValue`. -/
structure RTPortfolio where
  totalValue : ℚ
  totalPnl : ℚ
  totalPnlPercent : ℚ
  assets : List (String × RTAssetUpdate)

/-- Embedded from `src/unnamed/part_014` lines 152-206
(`PortfolioService.calculateRealTimePortfolioValue`): sums the per-asset
values and P&L and guards the total percentage by
`portfolioData.total_invested > 0`. The assets record and the portfolio's
`total_invested` are passed explicitly instead of inside a `PortfolioData`
record. -/
def calculateRealTimePortfolioValue (assets : List (String × AssetData))
    (total_invested : ℚ) (currentPrices : String → Option ℚ) : RTPortfolio :=
  let updated := assets.map (fun sa => (sa.1, rtAssetUpdate sa.2 (currentPrices sa.1)))
  let totalValue := (updated.map (fun u => u.2.currentValue)).sum
  let totalPnl := (updated.map (fun u => u.2.pnl)).sum
  let totalPnlPercent :=
    if total_invested > 0 then totalPnl / total_invested * 100 else 0
  ⟨totalValue, totalPnl, totalPnlPercent, updated⟩

/-- Embedded from `src/unnamed/part_014` lines 316-328
(`getCombinedPortfolioSummary`): accumulates `(totalValue, totalPnl,
totalInvested)` over the multi-asset entries with `current_value > 0`.
Legacy balances contribute only to `totalValue`, never to `totalPnl` or
`totalInvested`, so they cannot affect the P&L percentage. -/
def combinedTotals (assets : List (String × AssetData)) : ℚ × ℚ × ℚ :=
  assets.foldl
    (fun acc sa =>
      if sa.2.current_value > 0 then
        (acc.1 + sa.2.current_value, acc.2.1 + sa.2.unrealized_pnl,
          acc.2.2 + sa.2.total_invested)
      else acc)
    (0, 0, 0)

/-- Embedded from `src/unnamed/part_014` line 375: `totalPnlPercent =
totalInvested > 0 ? (totalPnl / totalInvested) * 100 : 0`. -/
def combinedTotalPnlPercent (assets : List (String × AssetData)) : ℚ :=
  let t := combinedTotals assets
  if t.2.2 > 0 then t.2.1 / t.2.2 * 100 else 0

/-- C10: every percentage P&L computation in the portfolio service is
division-guarded: whenever the invested amount (or, for the price-change
percentage, the reference price) is zero or negative, the returned
percentage is exactly `0`, in `calculateAssetPnL`,
`calculateRealTimePortfolioValue` (per asset and in total) and
`getCombinedPortfolioSummary` alike. -/
theorem pnl_percent_division_guarded :
    (∀ qty avg price invested : ℚ, invested ≤ 0 →
        (calculateAssetPnL qty avg price invested).unrealizedPnlPercent = 0) ∧
    (∀ (asset : AssetData) (lookup : Option ℚ),
        (asset.total_invested ≤ 0 → (rtAssetUpdate asset lookup).pnlPercent = 0) ∧
        (asset.current_price ≤ 0 → (rtAssetUpdate asset lookup).priceChangePercent = 0)) ∧
    (∀ (assets : List (String × AssetData)) (ti : ℚ) (prices : String → Option ℚ),
        ti ≤ 0 → (calculateRealTimePortfolioValue assets ti prices).totalPnlPercent = 0) ∧
    (∀ assets : List (String × AssetData), (combinedTotals assets).2.2 ≤ 0 →
        combinedTotalPnlPercent assets = 0) := by
  refine ⟨?_, ?_, ?_, ?_⟩
  · intro qty avg price invested h
    show (if invested > 0 then _ else 0) = 0
    rw [if_neg (not_lt.mpr h)]
  · intro asset lookup
    constructor
    · intro h
      show (if asset.total_invested > 0 then _ else 0) = 0
      rw [if_neg (not_lt.mpr h)]
    · intro h
      show (if asset.current_price > 0 then _ else 0) = 0
      rw [if_neg (not_lt.mpr h)]
  · intro assets ti prices h
    show (if ti > 0 then _ else 0) = 0
    rw [if_neg (not_lt.mpr h)]
  · intro assets h
    unfold combinedTotalPnlPercent
    dsimp
    rw [if_neg (not_lt.mpr h)]

/-- Witness for C10: with zero invested everywhere, all four percentage
computations return `0`. -/
theorem pnl_percent_division_guarded_witness :
    (calculateAssetPnL 1 2 3 0).unrealizedPnlPercent = 0 ∧
      (rtAssetUpdate ⟨1, 0, 3, 2, 0, 0, 0⟩ none).pnlPercent = 0 ∧
      (rtAssetUpdate ⟨1, 0, 3, 2, 0, 0, 0⟩ none).priceChangePercent = 0 ∧
      (calculateRealTimePortfolioValue [] 0 (fun _ => none)).totalPnlPercent = 0 ∧
      combinedTotalPnlPercent [] = 0 :=
  ⟨pnl_percent_division_guarded.1 1 2 3 0 (by norm_num),
    (pnl_percent_division_guarded.2.1 ⟨1, 0, 3, 2, 0, 0, 0⟩ none).1 (by norm_num),
    (pnl_percent_division_guarded.2.1 ⟨1, 0, 3, 2, 0, 0, 0⟩ none).2 (by norm_num),
    pnl_percent_division_guarded.2.2.1 [] 0 (fun _ => none) (by norm_num),
    pnl_percent_division_guarded.2.2.2 [] (by norm_num [combinedTotals])⟩

/-! ## Order validation (`src/frontend/contexts/TradingContext.tsx`) -/

/-- A JavaScript `number` as observed by `validateOrder`: `NaN`, the two
infinities, or a finite value (modelled as a rational). `amount` is passed
as the `parseFloat` image of the user's input string. -/
inductive JsNum where
  | nan : JsNum
  | inf : JsNum
  | neginf : JsNum
  | fin : ℚ → JsNum
deriving DecidableEq, Repr

/-- IEEE `isNaN`. -/
def JsNum.isNaN : JsNum → Bool
  | .nan => true
  | _ => false

/-- IEEE `<`: any comparison with `NaN` is false. -/
def JsNum.lt : JsNum → JsNum → Bool
  | .nan, _ => false
  | _, .nan => false
  | .neginf, .neginf => false
  | .neginf, _ => true
  | _, .neginf => false
  | .inf, _ => false
  | .fin _, .inf => true
  | .fin a, .fin b => decide (a < b)

/-- IEEE `<=`: any comparison with `NaN` is false. -/
def JsNum.le : JsNum → JsNum → Bool
  | .nan, _ => false
  | _, .nan => false
  | .neginf, _ => true
  | _, .inf => true
  | .inf, _ => false
  | .fin a, .fin b => decide (a ≤ b)
  | .fin _, .neginf => false

/-- IEEE `>`. -/
def JsNum.gt (a b : JsNum) : Bool := JsNum.lt b a

/-- Division of a JavaScript number by a positive finite number `c`
(`requiredBTC = dollarValue / currentPrice`; only invoked under the
`currentPrice > 0` guard). -/
def JsNum.divq (a : JsNum) (c : ℚ) : JsNum :=
  match a with
  | .nan => .nan
  | .inf => .inf
  | .neginf => .neginf
  | .fin q => .fin (q / c)

/-- Multiplication of a JavaScript number by a positive finite number `c`
(`requiredUSD = quantity * currentPrice`; only invoked under the
`currentPrice > 0` guard). -/
def JsNum.mulq (a : JsNum) (c : ℚ) : JsNum :=
  match a with
  | .nan => .nan
  | .inf => .inf
  | .neginf => .neginf
  | .fin q => .fin (q * c)

/-- The `inputMode` argument of `validateOrder`. -/
inductive InputMode where
  | quantity : InputMode
  | dollar : InputMode
deriving DecidableEq, Repr

/-- Embedded from `src/frontend/contexts/TradingContext.tsx` lines 229-286
(`validateOrder`): collects validation error messages for a proposed order.
`amount` is the `parseFloat` image of the raw input; `currentPrice` is the
context's `currentPrice` (`null` modelled as `none`); `availableUSD` and
`availableBTC` are the values `getAvailableBalance` reads from the
portfolio. Numeric interpolation inside the error messages is elided; the
function is a pure function of its arguments (the source reads but never
writes context state). -/
def validateOrder (side : String) (amount : JsNum) (inputMode : InputMode)
    (currentPrice : Option ℚ) (availableUSD availableBTC : ℚ) : List String :=
  match inputMode with
  | .dollar =>
      (if amount.isNaN || amount.le (.fin 0) then
        ["유효한 달러 금액을 입력하세요"] else []) ++
      (if amount.lt (.fin (if side = "Buy" then 1 else 1)) then
        ["최소 주문 금액은 $1입니다"] else []) ++
      (if side = "Buy" then
        if amount.gt (.fin availableUSD) then ["잔액이 부족합니다"] else []
      else
        match currentPrice with
        | some c =>
            if 0 < c then
              if (amount.divq c).gt (.fin availableBTC) then
                ["BTC 잔액이 부족합니다"] else []
            else []
        | none => [])
  | .quantity =>
      (if amount.isNaN || amount.le (.fin 0) then
        ["유효한 수량을 입력하세요"] else []) ++
      (if amount.lt (.fin (1/1000)) then
        ["최소 주문 수량은 0.001 BTC입니다"] else []) ++
      (if side = "Sell" then
        if amount.gt (.fin availableBTC) then ["BTC 잔액이 부족합니다"] else []
      else
        match currentPrice with
        | some c =>
            if 0 < c then
              if (amount.mulq c).gt (.fin availableUSD) then
                ["잔액이 부족합니다"] else []
            else []
        | none => [])

/-- Counterexample for C2: `parseFloat` can return `Infinity`, which is
positive but not finite; for a sell order in dollar mode with no known
positive current price, `validateOrder` runs no balance check and returns
no error at all, so the claim that every non-finite amount is rejected is
false on the code. -/
theorem validateOrder_infinity_not_rejected :
    validateOrder "Sell" JsNum.inf InputMode.dollar none 100 1 = [] := rfl

/-- C2 (amended): in dollar mode, `validateOrder` rejects whenever the
amount is `NaN`, non-positive, or below the $1 minimum; and whenever the
amount is finite, at or above the minimum, and within the available
balance (USD for a buy; for a non-buy, BTC whenever a positive current
price is known), it produces no error. A `+Infinity` amount escapes these
checks and is only caught by the balance comparison, which for a sell
without a positive known price never runs. -/
theorem validateOrder_dollar_checks (side : String) (amount : JsNum)
    (cp : Option ℚ) (availableUSD availableBTC : ℚ) :
    ((amount.isNaN = true ∨ amount.le (.fin 0) = true ∨ amount.lt (.fin 1) = true) →
        validateOrder side amount .dollar cp availableUSD availableBTC ≠ []) ∧
    (∀ q : ℚ, amount = .fin q → 1 ≤ q →
        (side = "Buy" → q ≤ availableUSD) →
        (side ≠ "Buy" → ∀ c : ℚ, cp = some c → 0 < c → q / c ≤ availableBTC) →
        validateOrder side amount .dollar cp availableUSD availableBTC = []) := by
  constructor
  · intro h hcontra
    unfold validateOrder at hcontra
    dsimp only at hcontra
    rw [ite_self] at hcontra
    rw [List.append_eq_nil] at hcontra
    obtain ⟨h12, -⟩ := hcontra
    rw [List.append_eq_nil] at h12
    obtain ⟨h1, h2⟩ := h12
    rcases h with hn | hle | hlt
    · rw [hn] at h1
      simp at h1
    · rw [hle] at h1
      simp at h1
    · rw [hlt] at h2
      simp at h2
  · intro q hq h1q hbuy hsell
    subst hq
    have hq0 : ¬ q ≤ 0 := not_le.mpr (lt_of_lt_of_le one_pos h1q)
    have hq1 : ¬ q < 1 := not_lt.mpr h1q
    unfold validateOrder
    dsimp only
    rw [ite_self]
    by_cases hside : side = "Buy"
    · rw [if_pos hside]
      have hbal : ¬ availableUSD < q := not_lt.mpr (hbuy hside)
      simp [JsNum.isNaN, JsNum.le, JsNum.lt, JsNum.gt, hq0, hq1, hbal]
    · rw [if_neg hside]
      cases hcp : cp with
      | none => simp [JsNum.isNaN, JsNum.le, JsNum.lt, hq0, hq1]
      | some c =>
          by_cases hc : 0 < c
          · have hbal : ¬ availableBTC < q / c := not_lt.mpr (hsell hside c hcp hc)
            simp [JsNum.isNaN, JsNum.le, JsNum.lt, JsNum.gt, JsNum.divq,
              hq0, hq1, hc, hbal]
          · simp [JsNum.isNaN, JsNum.le, JsNum.lt, hq0, hq1, hc]

/-- Witness for C2 (amended): a $0.50 buy is rejected (below the $1
minimum) and a $50 buy against a $100 balance passes with no errors. -/
theorem validateOrder_dollar_checks_witness :
    validateOrder "Buy" (JsNum.fin (1/2)) .dollar (some 100) 100 1 ≠ [] ∧
      validateOrder "Buy" (JsNum.fin 50) .dollar (some 100) 100 1 = [] :=
  ⟨(validateOrder_dollar_checks "Buy" (JsNum.fin (1/2)) (some 100) 100 1).1
      (Or.inr (Or.inr (by norm_num [JsNum.lt]))),
    (validateOrder_dollar_checks "Buy" (JsNum.fin 50) (some 100) 100 1).2 50 rfl
      (by norm_num) (fun _ => by norm_num) (fun hne => absurd rfl hne)⟩

/-! ## Live signal log (`src/unnamed/part_008`) -/

/-- A fetched signal (`src/unnamed/part_008`, lines 6-12; the optional
`signal`/`side` fields are not read by the accumulator). `message` is
optional, as in the source (`s.message || ''`). -/
structure Signal where
  timestamp : String
  type : String
  message : Option String
deriving DecidableEq, Repr

/-- Embedded from `src/unnamed/part_008` lines 14-17 (`signalKey`): the
deduplication key is the timestamp concatenated with the first 40
characters of the message. -/
def signalKey (s : Signal) : String :=
  s.timestamp ++ "|" ++ (s.message.getD "").take 40

/-- Embedded from `src/unnamed/part_008` line 48: maximum number of
accumulated signals. -/
def MAX_SIGNALS : ℕ := 200

/-- The component state read and written by `fetchSignals`: the accumulated
`signals` list, the `seenKeysRef` set (modelled as a list of keys) and the
`isFirstFetch` flag. -/
structure LogState where
  signals : List Signal
  seen : List String
  isFirst : Bool
deriving DecidableEq, Repr

/-- The initial component state (`useState([])`, empty seen set,
`isFirstFetch = true`). -/
def initLogState : LogState := ⟨[], [], true⟩

/-- Embedded from `src/unnamed/part_008` lines 69-89 (the signal-handling
branch of `fetchSignals`, given a successfully fetched batch `incoming`):
on the first fetch all incoming signals are stored and their keys
registered; afterwards only signals whose key is not yet in the seen set
are prepended, and the merged list is truncated to `MAX_SIGNALS`. -/
def fetchStep (st : LogState) (incoming : List Signal) : LogState :=
  if st.isFirst then
    ⟨incoming, st.seen ++ incoming.map signalKey, false⟩
  else
    let fresh := incoming.filter (fun s => !(decide (signalKey s ∈ st.seen)))
    if 0 < fresh.length then
      ⟨(fresh ++ st.signals).take MAX_SIGNALS, st.seen ++ fresh.map signalKey, false⟩
    else st

/-- Run `fetchSignals` over a sequence of fetched batches from the initial
state. -/
def runLog (batches : List (List Signal)) : LogState :=
  batches.foldl fetchStep initLogState

set_option maxRecDepth 8192 in
/-- Counterexample for C9: a single fetched batch containing the same
signal twice is stored as-is by the first fetch (the seen-set is consulted
only for later batches and is updated only after the intra-batch filter),
so the accumulated list holds two entries with equal deduplication key. -/
theorem signal_log_duplicate_key :
    ¬ ((runLog [[⟨"t", "info", some "m"⟩, ⟨"t", "info", some "m"⟩]]).signals.map
        signalKey).Nodup := by
  decide

/-- The invariant maintained by `fetchStep`: bounded length (after the
first fetch's contribution), key-distinctness, and every stored key
registered in the seen set. -/
def LogInv (st : LogState) : Prop :=
  st.signals.length ≤ MAX_SIGNALS ∧
    (st.signals.map signalKey).Nodup ∧
    ∀ s ∈ st.signals, signalKey s ∈ st.seen

lemma logInv_init : LogInv initLogState := by
  refine ⟨by simp [initLogState, MAX_SIGNALS], by simp [initLogState], ?_⟩
  intro s hs
  simp [initLogState] at hs

lemma logInv_step (st : LogState) (b : List Signal) (hinv : LogInv st)
    (hb : (b.map signalKey).Nodup) (hlen : b.length ≤ MAX_SIGNALS) :
    LogInv (fetchStep st b) := by
  obtain ⟨hl, hnd, hseen⟩ := hinv
  unfold fetchStep
  by_cases hfirst : st.isFirst
  · rw [if_pos hfirst]
    refine ⟨hlen, hb, ?_⟩
    intro s hs
    exact List.mem_append_right _ (List.mem_map_of_mem signalKey hs)
  · rw [if_neg hfirst]
    dsimp only
    set fresh := b.filter (fun s => !(decide (signalKey s ∈ st.seen))) with hfresh
    by_cases hpos : 0 < fresh.length
    · rw [if_pos hpos]
      have hfresh_sub : fresh.Sublist b := List.filter_sublist b
      have hfresh_nd : (fresh.map signalKey).Nodup :=
        (hfresh_sub.map signalKey).nodup hb
      have hfresh_not_seen : ∀ s ∈ fresh, signalKey s ∉ st.seen := by
        intro s hs
        have := List.of_mem_filter hs
        simpa using this
      have hdis : (fresh.map signalKey).Disjoint (st.signals.map signalKey) := by
        intro k hk1 hk2
        obtain ⟨s, hs, rfl⟩ := List.mem_map.mp hk1
        obtain ⟨s', hs', hkey⟩ := List.mem_map.mp hk2
        exact hfresh_not_seen s hs (hkey ▸ hseen s' hs')
      refine ⟨?_, ?_, ?_⟩
      · exact le_trans (List.length_take_le _ _) (le_refl _)
      · have hall : ((fresh ++ st.signals).map signalKey).Nodup := by
          rw [List.map_append]
          exact List.nodup_append.mpr ⟨hfresh_nd, hnd, hdis⟩
        have : ((fresh ++ st.signals).take MAX_SIGNALS).map signalKey =
            ((fresh ++ st.signals).map signalKey).take MAX_SIGNALS := by
          rw [List.map_take]
        rw [this]
        exact (List.take_sublist _ _).nodup hall
      · intro s hs
        have hmem : s ∈ fresh ++ st.signals := (List.take_sublist _ _).mem hs
        rcases List.mem_append.mp hmem with hf | hold
        · exact List.mem_append_right _ (List.mem_map_of_mem signalKey hf)
        · exact List.mem_append_left _ (hseen s hold)
    · rw [if_neg hpos]
      exact ⟨hl, hnd, hseen⟩

lemma runLog_inv (batches : List (List Signal))
    (h : ∀ b ∈ batches, (b.map signalKey).Nodup ∧ b.length ≤ MAX_SIGNALS) :
    LogInv (runLog batches) := by
  have haux : ∀ (bs : List (List Signal)) (st : LogState), LogInv st →
      (∀ b ∈ bs, (b.map signalKey).Nodup ∧ b.length ≤ MAX_SIGNALS) →
      LogInv (bs.foldl fetchStep st) := by
    intro bs
    induction bs with
    | nil => intro st hst _; exact hst
    | cons b bs ih =>
        intro st hst hall
        have hb := hall b (List.mem_cons_self b bs)
        exact ih (fetchStep st b) (logInv_step st b hst hb.1 hb.2)
          (fun b' hb' => hall b' (List.mem_cons_of_mem b hb'))
  exact haux batches initLogState logInv_init h

/-- C9 (amended): provided every fetched batch has pairwise-distinct
deduplication keys and at most 200 entries, the accumulated signal list
never exceeds 200 entries and never holds two entries with equal key; and
after the first fetch, a signal whose key is already in the seen set is
never added by a later fetch. -/
theorem signal_log_bounded_and_deduped (batches : List (List Signal))
    (h : ∀ b ∈ batches, (b.map signalKey).Nodup ∧ b.length ≤ MAX_SIGNALS) :
    ((runLog batches).signals.length ≤ MAX_SIGNALS ∧
      ((runLog batches).signals.map signalKey).Nodup) ∧
    (∀ (st : LogState) (b : List Signal) (s : Signal),
        st.isFirst = false → signalKey s ∈ st.seen →
        s ∈ (fetchStep st b).signals → s ∈ st.signals) := by
  constructor
  · have := runLog_inv batches h
    exact ⟨this.1, this.2.1⟩
  · intro st b s hfirst hkey hs
    unfold fetchStep at hs
    rw [hfirst] at hs
    dsimp only at hs
    by_cases hpos : 0 < (b.filter (fun s => !(decide (signalKey s ∈ st.seen)))).length
    · rw [if_pos hpos] at hs
      have hmem : s ∈ b.filter (fun s => !(decide (signalKey s ∈ st.seen))) ++ st.signals :=
        (List.take_sublist _ _).mem hs
      rcases List.mem_append.mp hmem with hf | hold
      · have := List.of_mem_filter hf
        simp at this
        exact absurd hkey this
      · exact hold
    · rw [if_neg hpos] at hs
      exact hs

set_option maxRecDepth 8192 in
/-- Witness for C9 (amended): two batches sharing a signal accumulate it
once; the list stays within bounds and keys stay distinct. -/
theorem signal_log_bounded_and_deduped_witness :
    ((runLog [[⟨"t1", "info", some "a"⟩],
        [⟨"t1", "info", some "a"⟩, ⟨"t2", "exec", some "b"⟩]]).signals.length ≤ MAX_SIGNALS ∧
      ((runLog [[⟨"t1", "info", some "a"⟩],
          [⟨"t1", "info", some "a"⟩, ⟨"t2", "exec", some "b"⟩]]).signals.map
        signalKey).Nodup) ∧
    (∀ (st : LogState) (b : List Signal) (s : Signal),
        st.isFirst = false → signalKey s ∈ st.seen →
        s ∈ (fetchStep st b).signals → s ∈ st.signals) :=
  signal_log_bounded_and_deduped
    [[⟨"t1", "info", some "a"⟩], [⟨"t1", "info", some "a"⟩, ⟨"t2", "exec", some "b"⟩]]
    (by decide)

end AutoTr
